import Mathlib

/-!
Verification development for the Bareun Obsidian grammar-assistant plugin.

The definitions below are a shallow embedding of the TypeScript sources
`src/diagnostics.ts` and `src/main.ts`.  A JavaScript string is modelled as a
`List Char` of its code points (all texts of interest are BMP-only, where
JavaScript's UTF-16 code-unit indexing coincides with code-point indexing).
Regular-expression tests from the source are translated into equivalent
explicit character scanners; each such definition carries the regex it
implements in a comment.
-/

namespace Bkga

/-- A JavaScript string, modelled as its list of code points. -/
abbrev JSString := List Char

/-- `clamp(value, min, max) = Math.min(Math.max(value, min), max)`
(shared helper in both `diagnostics.ts` and `main.ts`). -/
def clamp (value lo hi : Int) : Int :=
  min (max value lo) hi

/-- `text.slice(start, end)` for `0 ≤ start ≤ end` (the only way it is
invoked after normalization): code points `start … end-1`. -/
def jsSlice (text : JSString) (s e : Nat) : JSString :=
  (text.take e).drop s

/-- `Buffer.byteLength(ch, 'utf8')` for a single BMP code point equals its
UTF-8 encoded size. -/
def jsByteLength (c : Char) : Nat := c.utf8Size

/-- Loop body of `utf8OffsetToIndex` (`diagnostics.ts`): walk the characters
accumulating UTF-8 byte sizes; return the index whose accumulated byte count
first exceeds the target offset, or `text.length` when none does.  `idx` is
the absolute index of the head of `chars`; `acc` the bytes consumed so far. -/
def utf8Walk (off : Int) : JSString → Nat → Int → Nat
  | [], idx, _ => idx
  | c :: rest, idx, acc =>
    if acc + (jsByteLength c : Int) > off then idx
    else utf8Walk off rest (idx + 1) (acc + (jsByteLength c : Int))

/-- `utf8OffsetToIndex(text, utf8Offset)` from `diagnostics.ts`. -/
def utf8OffsetToIndex (text : JSString) (off : Int) : Nat :=
  if off ≤ 0 then 0
  else utf8Walk off text 0 0

/-- Result record of `normalizeRange`. -/
structure NormalizedRange where
  start : Nat
  stop : Nat
  snippet : JSString
  deriving DecidableEq, Repr

/-- `normalizeRange(text, start, end)` from `diagnostics.ts`.  The TypeScript
field `end` is rendered as `stop`.  Returns `none` where the source returns
`null`. -/
def normalizeRange (text : JSString) (start stop : Int) : Option NormalizedRange :=
  if text.length = 0 then none
  else
    let len : Int := text.length
    -- Fast path: already within bounds and non-empty.
    if 0 ≤ start ∧ stop > start ∧ stop ≤ len then
      let snippet := jsSlice text start.toNat stop.toNat
      if snippet = [] then none
      else some ⟨start.toNat, stop.toNat, snippet⟩
    else
      -- Fallback: offsets may be UTF-8 byte based rather than code units.
      let startByUtf8 : Int := utf8OffsetToIndex text start
      let endByUtf8 : Int := utf8OffsetToIndex text stop
      let normalizedStart := clamp startByUtf8 0 len
      let normalizedEnd0 := clamp (max endByUtf8 (normalizedStart + 1)) 0 len
      let normalizedEnd :=
        if normalizedEnd0 ≤ normalizedStart then min len (normalizedStart + 1)
        else normalizedEnd0
      let snippet := jsSlice text normalizedStart.toNat normalizedEnd.toNat
      if snippet = [] then none
      else some ⟨normalizedStart.toNat, normalizedEnd.toNat, snippet⟩

/-! ### Character classes and string helpers for the regex scanners -/

/-- ASCII `A`–`Z`. -/
def isAsciiUpper (c : Char) : Bool := 65 ≤ c.toNat && c.toNat ≤ 90

/-- ASCII `a`–`z`. -/
def isAsciiLower (c : Char) : Bool := 97 ≤ c.toNat && c.toNat ≤ 122

/-- ASCII letter. -/
def isAsciiLetter (c : Char) : Bool := isAsciiUpper c || isAsciiLower c

/-- ASCII digit `0`–`9`. -/
def isAsciiDigit (c : Char) : Bool := 48 ≤ c.toNat && c.toNat ≤ 57

/-- Hangul syllable block `가`–`힣` (U+AC00–U+D7A3), the class `[가-힣]`. -/
def isHangulSyllable (c : Char) : Bool := 0xAC00 ≤ c.toNat && c.toNat ≤ 0xD7A3

/-- JavaScript regex `\w`: `[A-Za-z0-9_]`. -/
def isWordChar (c : Char) : Bool := isAsciiLetter c || isAsciiDigit c || c == '_'

/-- JavaScript regex `\s` (whitespace, incl. Unicode space separators). -/
def isJsSpace (c : Char) : Bool :=
  c == ' ' || c == '\t' || c == '\n' || c == '\r' ||
  c.toNat == 0x0B || c.toNat == 0x0C || c.toNat == 0xA0 || c.toNat == 0x1680 ||
  (0x2000 ≤ c.toNat && c.toNat ≤ 0x200A) ||
  c.toNat == 0x2028 || c.toNat == 0x2029 || c.toNat == 0x202F || c.toNat == 0x205F ||
  c.toNat == 0x3000 || c.toNat == 0xFEFF

/-- `String.prototype.toUpperCase`, per code point (ASCII range; identity on
every character the sources ever uppercase). -/
def jsToUpper (c : Char) : Char :=
  if isAsciiLower c then Char.ofNat (c.toNat - 32) else c

/-- `String.prototype.toLowerCase`, per code point (ASCII range). -/
def jsToLower (c : Char) : Char :=
  if isAsciiUpper c then Char.ofNat (c.toNat + 32) else c

/-- `String.prototype.trimEnd`. -/
def jsTrimEnd (l : JSString) : JSString :=
  (l.reverse.dropWhile isJsSpace).reverse

/-- `String.prototype.trim`. -/
def jsTrim (l : JSString) : JSString :=
  jsTrimEnd (l.dropWhile isJsSpace)

/-- `haystack.includes(needle)` for strings. -/
def containsSubstr (haystack needle : JSString) : Bool :=
  haystack.tails.any (fun s => needle.isPrefixOf s)

/-! ### The suppression-rule scanners of `diagnostics.ts` -/

/-- `isLikelyEnglish`: strip everything outside `[A-Za-z가-힣]`; not empty,
no Hangul, and at least one Latin letter. -/
def isLikelyEnglish (t : JSString) : Bool :=
  let cleaned := t.filter (fun c => isAsciiLetter c || isHangulSyllable c)
  if cleaned = [] then false
  else if cleaned.any isHangulSyllable then false
  else cleaned.any isAsciiLetter

/-- Does `/https?:\/\/\S+/` match at the head of the (lower-cased) string? -/
def httpAt (s : JSString) : Bool :=
  if ("https://".toList).isPrefixOf s then
    match s.drop 8 with
    | c :: _ => !(isJsSpace c)
    | [] => false
  else if ("http://".toList).isPrefixOf s then
    match s.drop 7 with
    | c :: _ => !(isJsSpace c)
    | [] => false
  else false

/-- `/https?:\/\/\S+/i.test(text)`. -/
def containsUrl (t : JSString) : Bool :=
  ((t.map jsToLower).tails).any httpAt

/-- Local-part class of the email regex: `[A-Za-z0-9._%+-]`. -/
def isEmailLocalChar (c : Char) : Bool :=
  isAsciiLetter c || isAsciiDigit c || c == '.' || c == '_' || c == '%' || c == '+' || c == '-'

/-- Domain class of the email regex: `[A-Za-z0-9.-]`. -/
def isEmailDomainChar (c : Char) : Bool :=
  isAsciiLetter c || isAsciiDigit c || c == '.' || c == '-'

/-- Does `/[A-Za-z0-9._%+-]+@[A-Za-z0-9.-]+\.[A-Za-z]\x7b2,\x7d/` match at the
head of the string?  The local part is the maximal local-char run (it cannot
be shortened, since `@` is not a local char); a domain split exists iff the
maximal domain run contains a dot at index `≥ 1` followed by two letters. -/
def emailAt (s : JSString) : Bool :=
  let localLen := (s.takeWhile isEmailLocalChar).length
  if localLen = 0 then false
  else
    match s.drop localLen with
    | '@' :: rest =>
      let domainRun := rest.takeWhile isEmailDomainChar
      (List.range domainRun.length).any fun j =>
        decide (1 ≤ j) && (domainRun[j]? == some '.') &&
          (match domainRun.drop (j + 1) with
           | a :: b :: _ => isAsciiLetter a && isAsciiLetter b
           | _ => false)
    | _ => false

/-- Email half of `containsUrlOrEmail`. -/
def containsEmail (t : JSString) : Bool := t.tails.any emailAt

/-- `containsUrlOrEmail` from `diagnostics.ts`. -/
def containsUrlOrEmail (t : JSString) : Bool := containsUrl t || containsEmail t

/-- Does the markdown-link regex match at the head of the string?
`[^\]]+` cannot contain `]`, so the maximal run followed by `](` and a
non-empty `[^)]+` run followed by `)` is equivalent. -/
def markdownLinkAt (s : JSString) : Bool :=
  match s with
  | '[' :: rest =>
    let inner := rest.takeWhile (fun c => c != ']')
    if inner.length = 0 then false
    else
      match rest.drop inner.length with
      | ']' :: '(' :: rest2 =>
        let inner2 := rest2.takeWhile (fun c => c != ')')
        if inner2.length = 0 then false
        else
          match rest2.drop inner2.length with
          | ')' :: _ => true
          | _ => false
      | _ => false
  | _ => false

/-- `containsMarkdownLink` from `diagnostics.ts`. -/
def containsMarkdownLink (t : JSString) : Bool := t.tails.any markdownLinkAt

/-- Matches `/[가-힣],[가-힣]/` at the head of the string. -/
def hangulCommaAt : JSString → Bool
  | a :: c :: b :: _ => isHangulSyllable a && c == ',' && isHangulSyllable b
  | _ => false

/-- `containsHangulCommaRun` from `diagnostics.ts`. -/
def containsHangulCommaRun (t : JSString) : Bool := t.tails.any hangulCommaAt

/-- Class `[A-Z0-9]` of the all-caps regex. -/
def isCapsOrDigit (c : Char) : Bool := isAsciiUpper c || isAsciiDigit c

/-- `\b` holds before the current position given the previous character. -/
def boundaryBefore : Option Char → Bool
  | none => true
  | some p => !(isWordChar p)

/-- Maximal `[A-Z0-9]` run at the head has length `≥ 3` and is followed by a
word boundary.  (Shorter sub-runs would end at an in-class, hence word,
character, so only the maximal run can satisfy the trailing `\b`.) -/
def capsRunOk (s : JSString) : Bool :=
  let run := s.takeWhile isCapsOrDigit
  decide (3 ≤ run.length) &&
    (match s.drop run.length with
     | [] => true
     | d :: _ => !(isWordChar d))

/-- Scanner for `/\b[A-Z0-9]\x7b3,\x7d\b/`, tracking the previous character
for the leading word boundary. -/
def allCapsScan : Option Char → JSString → Bool
  | prev, c :: rest =>
    (boundaryBefore prev && isCapsOrDigit c && capsRunOk (c :: rest)) ||
      allCapsScan (some c) rest
  | _, [] => false

/-- `containsAllCapsAscii` from `diagnostics.ts`. -/
def containsAllCapsAscii (t : JSString) : Bool := allCapsScan none t

/-- The alternation of the shortcut regex. -/
def shortcutWords : List JSString :=
  ["cmd", "ctrl", "shift", "alt", "option", "enter", "esc", "tab", "space",
    "backspace", "delete", "del"].map String.toList

/-- Some shortcut word matches at the head, followed by a word boundary. -/
def shortcutWordAt (s : JSString) : Bool :=
  shortcutWords.any fun w =>
    w.isPrefixOf s &&
      (match s.drop w.length with
       | [] => true
       | d :: _ => !(isWordChar d))

/-- Scanner for the shortcut-word regex with leading `\b`. -/
def shortcutScan : Option Char → JSString → Bool
  | prev, c :: rest =>
    (boundaryBefore prev && shortcutWordAt (c :: rest)) || shortcutScan (some c) rest
  | _, [] => false

/-- `containsShortcutPattern` from `diagnostics.ts`: a shortcut word (with
word boundaries, case-insensitive) plus a `+` or a bracket character. -/
def containsShortcutPattern (t : JSString) : Bool :=
  if !(shortcutScan none (t.map jsToLower)) then false
  else t.any (fun c => c == '+') ||
    t.any (fun c => c == '(' || c == ')' || c == '[' || c == ']')

/-- `/\(([^)]+)\)/.exec(text)`: capture group of the first match.  At each
`(`, the maximal run of non-`)` characters must be non-empty and followed by
a `)`; otherwise the scan continues at the next position. -/
def firstParenInner : JSString → Option JSString
  | [] => none
  | c :: rest =>
    if c == '(' then
      let inner := rest.takeWhile (fun x => x != ')')
      if 0 < inner.length ∧ rest.drop inner.length ≠ [] then some inner
      else firstParenInner rest
    else firstParenInner rest

/-- Part class of the parenthetical-list rule: `[가-힣0-9\s·-]`. -/
def isParenPartChar (c : Char) : Bool :=
  isHangulSyllable c || isAsciiDigit c || isJsSpace c || c == '·' || c == '-'

/-- `containsParentheticalList` from `diagnostics.ts`. -/
def containsParentheticalList (t : JSString) : Bool :=
  match firstParenInner t with
  | none => false
  | some inner =>
    if !(inner.any isHangulSyllable) then false
    else
      let parts := ((inner.splitOn ',').map jsTrim).filter (fun p => !(p.isEmpty))
      if parts.length < 2 then false
      else parts.all (fun p => p.all isParenPartChar)

/-- `shouldIgnoreSnippet` from `diagnostics.ts`. -/
def shouldIgnoreSnippet (snippet category : JSString) (ignoreEnglish : Bool) : Bool :=
  let trimmed := jsTrim snippet
  if trimmed = [] then true
  else if ignoreEnglish && isLikelyEnglish trimmed then true
  else if containsUrlOrEmail trimmed || containsMarkdownLink trimmed then true
  else if containsParentheticalList trimmed then true
  else if containsSubstr category ("SPACING".toList) then
    containsShortcutPattern trimmed || containsHangulCommaRun trimmed ||
      containsAllCapsAscii trimmed
  else false

/-! ### Category extraction and inline-code spans -/

/-- The class `[A-Z_가-힣]` of `extractCategory`. -/
def isCategoryChar (c : Char) : Bool :=
  isAsciiUpper c || c == '_' || isHangulSyllable c

/-- `extractCategory(message)` from `diagnostics.ts`: the upper-cased maximal
leading `[A-Z_가-힣]+` run, or `UNKNOWN` when the message does not start with
such a character. -/
def extractCategory (message : JSString) : JSString :=
  let run := message.takeWhile isCategoryChar
  if run = [] then "UNKNOWN".toList
  else run.map jsToUpper

/-- The backquote character U+0060. -/
def backquote : Char := Char.ofNat 96

/-- A half-open `[start, end)` span; the TypeScript field `end` is rendered
as `stop`. -/
structure Span where
  start : Nat
  stop : Nat
  deriving DecidableEq, Repr

/-- Helper for `String.prototype.indexOf(pat, from)`: scan the suffix,
carrying the absolute index of its head. -/
def indexOfAux (pat : JSString) : JSString → Nat → Option Nat
  | [], i => if pat = [] then some i else none
  | c :: rest, i =>
    if pat.isPrefixOf (c :: rest) then some i
    else indexOfAux pat rest (i + 1)

/-- `text.indexOf(pat, start)`; `none` where the source gets `-1`. -/
def jsIndexOf (text pat : JSString) (start : Nat) : Option Nat :=
  indexOfAux pat (text.drop start) start

/-- The backquote run length at index `i` (the loop computing `fenceLen`,
given that `text[i]` is a backquote). -/
def fenceLenAt (text : JSString) (i : Nat) : Nat :=
  ((text.drop i).takeWhile (fun c => c == backquote)).length

/-- The `while` loop of `computeInlineCodeOffsets` (`diagnostics.ts`): scan
for a backquote fence of length `n`, find the next equal fence, record the
enclosing span, continue after it; an unclosed fence ends the scan.  The
loop advances `i` by at least one per iteration, so a fuel of `text.length`
(consumed one unit per iteration) never runs out before `i` reaches the end
of the text; it only makes the recursion structural. -/
def inlineCodeScan (text : JSString) : Nat → Nat → List Span
  | _, 0 => []
  | i, fuel + 1 =>
    if i < text.length then
      if text[i]? ≠ some backquote then inlineCodeScan text (i + 1) fuel
      else
        let fenceLen := fenceLenAt text i
        match jsIndexOf text (List.replicate fenceLen backquote) (i + fenceLen) with
        | none => []
        | some closing =>
          ⟨i, closing + fenceLen⟩ :: inlineCodeScan text (closing + fenceLen) fuel
    else []

/-- `computeInlineCodeOffsets(text)` from `diagnostics.ts`. -/
def computeInlineCodeOffsets (text : JSString) : List Span :=
  inlineCodeScan text 0 text.length

/-- `intersectsInlineCode(start, end, spans)` from `diagnostics.ts`:
half-open interval overlap against any span. -/
def intersectsInlineCode (start stop : Nat) (spans : List Span) : Bool :=
  if spans.length = 0 then false
  else spans.any fun sp => max sp.start start < min sp.stop stop

/-! ### Issues and the refinement pipeline -/

/-- The `severity` enum of `BareunIssue` (`constants.ts`). -/
inductive Severity
  | error
  | warning
  | info
  deriving DecidableEq, Repr

/-- `BareunIssue` from `constants.ts`; `end` is rendered as `stop`. -/
structure BareunIssue where
  start : Int
  stop : Int
  message : JSString
  suggestion : Option JSString := none
  severity : Option Severity := none
  deriving DecidableEq, Repr

/-- `ProcessedIssue` from `diagnostics.ts`: a `BareunIssue` whose `start`/
`stop` have been overwritten with the normalized code-point bounds, plus the
derived `category` and `snippet`. -/
structure ProcessedIssue where
  start : Nat
  stop : Nat
  message : JSString
  suggestion : Option JSString
  severity : Option Severity
  category : JSString
  snippet : JSString
  deriving DecidableEq, Repr

/-- `refineIssues(text, issues, options)` from `diagnostics.ts`.  The sole
option `ignoreEnglish` is passed as `Option Bool` (`?? true` in source). -/
def refineIssues (text : JSString) (issues : List BareunIssue)
    (ignoreEnglishOpt : Option Bool) : List ProcessedIssue :=
  let ignoreEnglish := ignoreEnglishOpt.getD true
  let inlineSpans := computeInlineCodeOffsets text
  issues.filterMap fun issue =>
    match normalizeRange text issue.start issue.stop with
    | none => none
    | some nr =>
      if intersectsInlineCode nr.start nr.stop inlineSpans then none
      else
        let category := extractCategory issue.message
        if shouldIgnoreSnippet nr.snippet category ignoreEnglish then none
        else some { start := nr.start, stop := nr.stop, message := issue.message,
                    suggestion := issue.suggestion, severity := issue.severity,
                    category := category, snippet := nr.snippet }

/-! ### Local heuristic fallback -/

/-- The matches of `/ \x7b2,\x7d/g` as `(index, length)` pairs: maximal runs
of at least two spaces, found left to right.  `i` is the absolute index of
the head of the list.  Each iteration consumes at least one character, so a
fuel equal to the initial list length never runs out early; it only makes
the recursion structural. -/
def doubleSpaceScan : Nat → JSString → Nat → List (Nat × Nat)
  | 0, _, _ => []
  | _ + 1, [], _ => []
  | fuel + 1, c :: rest, i =>
    if c == ' ' then
      let rl := 1 + (rest.takeWhile (fun x => x == ' ')).length
      if 2 ≤ rl then (i, rl) :: doubleSpaceScan fuel (rest.drop (rl - 1)) (i + rl)
      else doubleSpaceScan fuel rest (i + 1)
    else doubleSpaceScan fuel rest (i + 1)

/-- All matches of `/ \x7b2,\x7d/g` over `text`. -/
def doubleSpaceRuns (text : JSString) : List (Nat × Nat) :=
  doubleSpaceScan text.length text 0

/-- `text.split(/\r?\n/)`: split on `\n`, consuming one `\r` directly before
it; a lone `\r` is ordinary content. -/
def splitLines : JSString → List JSString
  | [] => [[]]
  | '\n' :: rest => [] :: splitLines rest
  | '\r' :: '\n' :: rest => [] :: splitLines rest
  | c :: rest =>
    match splitLines rest with
    | [] => [[c]]
    | l :: ls => (c :: l) :: ls

/-- Trailing-whitespace pass of `buildLocalHeuristics`: one issue per line
ending in a space; `pos` advances by `line.length + 1` per line (the stripped
terminator is counted as one character, as in the source). -/
def trailingSpaceIssues : List JSString → Nat → List ProcessedIssue
  | [], _ => []
  | line :: rest, pos =>
    let here :=
      if line.getLast? == some ' ' then
        let trimmedLength := (jsTrimEnd line).length
        [{ start := pos + trimmedLength, stop := pos + line.length,
           message := "행 끝에 불필요한 공백이 있습니다.".toList,
           suggestion := some [], severity := some .info,
           category := "SPACING".toList,
           snippet := line.drop trimmedLength }]
      else []
    here ++ trailingSpaceIssues rest (pos + line.length + 1)

/-- `buildLocalHeuristics(text)` from `diagnostics.ts`: double-space runs,
then trailing whitespace per line. -/
def buildLocalHeuristics (text : JSString) : List ProcessedIssue :=
  ((doubleSpaceRuns text).map fun (i, len) =>
    { start := i, stop := i + len,
      message := "여분의 공백이 있습니다.".toList,
      suggestion := some [' '], severity := some .warning,
      category := "SPACING".toList,
      snippet := jsSlice text i (i + len) }) ++
  trailingSpaceIssues (splitLines text) 0

/-! ### `main.ts`: run tracker -/

/-- `isStaleRun(path, token)`: `latestRunToken.get(path) !== token`
(a missing entry, `undefined`, compares unequal to every token). -/
def isStaleRun (latest : Option Nat) (token : Nat) : Bool :=
  latest != some token

/-- The run-token allocation at the head of `runAnalysis`:
`runToken = (latestRunToken.get(path) ?? 0) + 1; latestRunToken.set(path, runToken)`.
Returns the updated stored token and the token handed to this run. -/
def beginRun (latest : Option Nat) : Option Nat × Nat :=
  let runToken := latest.getD 0 + 1
  (some runToken, runToken)

/-- The stored token after `n` runs have been initiated on one key, starting
from the absent entry. -/
def tokenAfter : Nat → Option Nat
  | 0 => none
  | n + 1 => (beginRun (tokenAfter n)).1

/-- The commit gate of `runAnalysis` (both the success path and the catch
path): the diagnostics entry is replaced only when the run is not stale. -/
def commitIfFresh (latest : Option Nat) (token : Nat) (issues : List ProcessedIssue)
    (diagnostics : Option (List ProcessedIssue)) : Option (List ProcessedIssue) :=
  if isStaleRun latest token then diagnostics else some issues

/-! ### `main.ts`: the catch path of `runAnalysis` -/

/-- The operations the catch handler of `runAnalysis` performs, in order. -/
inductive CatchAction
  | checkStale (stale : Bool)
  | computeFallback
  | commitDiagnostics
  | setStatus
  deriving DecidableEq, Repr

/-- The per-key state touched by the catch handler. -/
structure RunState where
  latestRunToken : Option Nat
  diagnostics : Option (List ProcessedIssue)
  status : JSString
  deriving DecidableEq, Repr

/-- The catch handler of `runAnalysis` (`main.ts`), as a state transformer
paired with the ordered trace of operations it performs: one staleness check;
when fresh, it then computes `buildLocalHeuristics(text)`, stores it in the
diagnostics map and updates the status.  The handler contains no `await`, so
it runs without suspension. -/
def runAnalysisCatch (s : RunState) (text : JSString) (runToken : Nat) :
    RunState × List CatchAction :=
  if isStaleRun s.latestRunToken runToken then
    (s, [CatchAction.checkStale true])
  else
    let fallback := buildLocalHeuristics text
    ({ s with diagnostics := some fallback, status := "API error (local)".toList },
      [CatchAction.checkStale false, CatchAction.computeFallback,
        CatchAction.commitDiagnostics, CatchAction.setStatus])

/-- Whether a trace performs a staleness check strictly after the fallback
has been computed. -/
def hasStaleCheckAfterFallback (tr : List CatchAction) : Bool :=
  ((tr.dropWhile (fun a => a ≠ CatchAction.computeFallback)).drop 1).any
    fun a => match a with
      | CatchAction.checkStale _ => true
      | _ => false

/-! ### `main.ts`: scheduler (`queueAnalysis`) -/

/-- The per-key scheduling state: the pending timer (absolute fire time),
`lastRunAt`, and the times at which analysis has been invoked. -/
structure SchedState where
  pendingTimer : Option Nat
  lastRunAt : Option Nat
  fired : List Nat
  deriving DecidableEq, Repr

/-- The body of `queueAnalysis` (`main.ts`) at wall-clock time `now`:
clear any pending timer, compute
`due = max(now + debounceMs, (lastRunAt.get(path) ?? 0) + cooldownMs)` and
`delay = Math.max(0, due - now)`, and install a timer firing at
`now + delay`.  (`due ≥ now`, so the ℕ subtraction equals the source's
`Math.max(0, due - now)`.) -/
def queueAnalysis (debounceMs cooldownMs : Nat) (s : SchedState) (now : Nat) :
    SchedState :=
  let debounceTarget := now + debounceMs
  let cooldownTarget := s.lastRunAt.getD 0 + cooldownMs
  let due := max debounceTarget cooldownTarget
  let delay := due - now
  { s with pendingTimer := some (now + delay) }

/-- Timer semantics up to time `t`: a pending timer whose fire time has been
reached runs `runAnalysis`, which deletes the timer entry and records
`lastRunAt = Date.now()` (the fire time). -/
def fireDue (s : SchedState) (t : Nat) : SchedState :=
  match s.pendingTimer with
  | some f =>
    if f ≤ t then { pendingTimer := none, lastRunAt := some f, fired := s.fired ++ [f] }
    else s
  | none => s

/-- Run a whole edit scenario: edits arrive at the given (non-decreasing)
times; any timer due before an edit fires first; after the last edit the
remaining pending timer fires. -/
def processEdits (debounceMs cooldownMs : Nat) : SchedState → List Nat → SchedState
  | s, [] =>
    match s.pendingTimer with
    | some f => { pendingTimer := none, lastRunAt := some f, fired := s.fired ++ [f] }
    | none => s
  | s, t :: rest =>
    processEdits debounceMs cooldownMs
      (queueAnalysis debounceMs cooldownMs (fireDue s t) t) rest

/-! ### `main.ts`: dictionary, category classifier, visible issues -/

/-- The keys of `CustomDictionaryData` (`main.ts`), in `Object.keys` order. -/
inductive DictKey
  | npSet
  | cpSet
  | cpCaretSet
  | vvSet
  | vaSet
  deriving DecidableEq, Repr

/-- `CustomDictionaryData` from `main.ts`. -/
structure CustomDictionaryData where
  npSet : List JSString
  cpSet : List JSString
  cpCaretSet : List JSString
  vvSet : List JSString
  vaSet : List JSString
  deriving DecidableEq, Repr

/-- Field access `customDict[key]`. -/
def dictGet (d : CustomDictionaryData) : DictKey → List JSString
  | DictKey.npSet => d.npSet
  | DictKey.cpSet => d.cpSet
  | DictKey.cpCaretSet => d.cpCaretSet
  | DictKey.vvSet => d.vvSet
  | DictKey.vaSet => d.vaSet

/-- `Object.keys(customDict)` in declaration order. -/
def dictKeys : List DictKey :=
  [DictKey.npSet, DictKey.cpSet, DictKey.cpCaretSet, DictKey.vvSet, DictKey.vaSet]

/-- `lookupDictionary(word)` from `main.ts`. -/
def lookupDictionary (d : CustomDictionaryData) (word : JSString) : List DictKey :=
  let normalized := jsTrim word
  if normalized = [] then []
  else dictKeys.filter fun key => (dictGet d key).contains normalized

/-- The character class stripped by `normalizeWord` (`main.ts`):
backquote, straight and curly quotes, and whitespace. -/
def isNormalizeStripChar (c : Char) : Bool :=
  c == backquote || c == '"' || c == Char.ofNat 39 || c == '”' || c == '“' ||
    c == '‘' || c == '’' || isJsSpace c

/-- `normalizeWord(text)` from `main.ts`. -/
def normalizeWord (text : JSString) : JSString :=
  jsTrim (text.filter fun c => !(isNormalizeStripChar c))

/-- `categoryKey(category)` from `main.ts`: canonical category via
case-insensitive substring matching, first match wins. -/
def categoryKey (category : JSString) : JSString :=
  let normalized := category.map jsToUpper
  if containsSubstr normalized "SPELLING".toList ||
      containsSubstr normalized "맞춤법".toList ||
      containsSubstr normalized "TYPO".toList then "TYPO".toList
  else if containsSubstr normalized "SPACING".toList ||
      containsSubstr normalized "띄어쓰기".toList then "SPACING".toList
  else if containsSubstr normalized "STANDARD".toList ||
      containsSubstr normalized "표준어".toList then "STANDARD".toList
  else if containsSubstr normalized "STATISTICAL".toList ||
      containsSubstr normalized "통계".toList then "STATISTICAL".toList
  else "DEFAULT".toList

/-- `categoryToClass(category)` from `main.ts`. -/
def categoryToClass (category : JSString) : JSString :=
  let normalized := category.map jsToUpper
  if containsSubstr normalized "SPELLING".toList ||
      containsSubstr normalized "맞춤법".toList ||
      containsSubstr normalized "TYPO".toList then "bkga-spelling".toList
  else if containsSubstr normalized "SPACING".toList ||
      containsSubstr normalized "띄어쓰기".toList then "bkga-spacing".toList
  else if containsSubstr normalized "STANDARD".toList ||
      containsSubstr normalized "표준어".toList then "bkga-standard".toList
  else if containsSubstr normalized "STATISTICAL".toList ||
      containsSubstr normalized "통계".toList then "bkga-statistical".toList
  else "bkga-default".toList

/-- The settings fields consumed by the modelled functions
(`BkgaSettings`, `main.ts`). -/
structure BkgaSettings where
  enabled : Bool
  ignoreEnglish : Bool
  debounceMs : Nat
  cooldownMs : Nat
  customDictEnabled : Bool
  suppressDictIssues : Bool
  deriving DecidableEq, Repr

/-- `passesDictFilter(issue)` from `main.ts`. -/
def passesDictFilter (settings : BkgaSettings) (dict : CustomDictionaryData)
    (issue : ProcessedIssue) : Bool :=
  if !settings.customDictEnabled then true
  else if !settings.suppressDictIssues then true
  else
    let key := categoryKey issue.category
    if key = "SPACING".toList ∨ key = "STATISTICAL".toList then true
    else
      let targetWords := [issue.snippet, issue.suggestion.getD []]
      !(targetWords.any fun w =>
        let normalized := normalizeWord w
        !normalized.isEmpty && !(lookupDictionary dict normalized).isEmpty)

/-- `isCategoryEnabled(issue)` from `main.ts`; `disabled` models the
`disabledCategories` set. -/
def isCategoryEnabled (disabled : List JSString) (issue : ProcessedIssue) : Bool :=
  !(disabled.contains (categoryKey issue.category))

/-- `getVisibleIssues(path)` from `main.ts`, applied to the diagnostics
entry of one key. -/
def getVisibleIssues (settings : BkgaSettings) (dict : CustomDictionaryData)
    (disabled : List JSString) (issues : List ProcessedIssue) : List ProcessedIssue :=
  issues.filter fun i => isCategoryEnabled disabled i && passesDictFilter settings dict i

/-! ### `main.ts`: decoration range builder -/

/-- The stable-sort comparator of `buildDecorations`:
`a.from - b.from !== 0 ? a.from - b.from : a.to - b.to`. -/
def decoLe (a b : ProcessedIssue × Nat × Nat) : Bool :=
  a.2.1 < b.2.1 || (a.2.1 == b.2.1 && a.2.2 ≤ b.2.2)

/-- `buildDecorations()` from `main.ts`, for one issue list and document
length: clip each span to `[0, docLength]`, drop empty clipped spans, stable
sort ascending by `from` then `to`, and emit `(from, to, cssClass)` marks in
that order (no merging, no deduplication). -/
def buildDecorations (issues : List ProcessedIssue) (docLength : Nat) :
    List (Nat × Nat × JSString) :=
  if issues.isEmpty then []
  else
    let sorted :=
      (((issues.map fun iss =>
          (iss, (clamp iss.start 0 docLength).toNat, (clamp iss.stop 0 docLength).toNat)).filter
        fun item => item.2.2 > item.2.1).mergeSort decoLe)
    sorted.map fun item =>
      (item.2.1, item.2.2, "bkga-underline ".toList ++ categoryToClass item.1.category)

/-! ## Lemmas -/

theorem jsSlice_length (text : JSString) (s e : Nat) :
    (jsSlice text s e).length = min e text.length - s := by
  simp [jsSlice]

theorem jsSlice_ne_nil {text : JSString} {s e : Nat}
    (h1 : s < e) (h2 : s < text.length) : jsSlice text s e ≠ [] := by
  have := jsSlice_length text s e
  intro hnil
  rw [hnil] at this
  simp only [List.length_nil] at this
  omega

/-- Any `some` result of `normalizeRange` has strictly ordered bounds within
the text and carries the literal slice as snippet. -/
theorem normalizeRange_some_spec {text : JSString} {s e : Int} {r : NormalizedRange}
    (h : normalizeRange text s e = some r) :
    r.start < r.stop ∧ r.stop ≤ text.length ∧
      r.snippet = jsSlice text r.start r.stop ∧ r.snippet ≠ [] := by
  obtain ⟨rs, re, rz⟩ := r
  show rs < re ∧ re ≤ text.length ∧ rz = jsSlice text rs re ∧ rz ≠ []
  simp only [normalizeRange, clamp] at h
  split at h
  · exact absurd h (by simp)
  next hlen =>
    split at h
    next hfast =>
      obtain ⟨h1, h2, h3⟩ := hfast
      split at h
      · exact absurd h (by simp)
      next hsnip =>
        simp only [Option.some.injEq, NormalizedRange.mk.injEq] at h
        obtain ⟨e1, e2, e3⟩ := h
        refine ⟨by omega, by omega, by rw [← e3, ← e1, ← e2], by rw [← e3]; exact hsnip⟩
    next hfast =>
      split at h
      next hdeg =>
        split at h
        · exact absurd h (by simp)
        next hsnip =>
          simp only [Option.some.injEq, NormalizedRange.mk.injEq] at h
          obtain ⟨e1, e2, e3⟩ := h
          have hpos := List.length_pos.mpr hsnip
          rw [jsSlice_length] at hpos
          refine ⟨by omega, by omega, by rw [← e3, ← e1, ← e2], by rw [← e3]; exact hsnip⟩
      next hdeg =>
        split at h
        · exact absurd h (by simp)
        next hsnip =>
          simp only [Option.some.injEq, NormalizedRange.mk.injEq] at h
          obtain ⟨e1, e2, e3⟩ := h
          have hpos := List.length_pos.mpr hsnip
          rw [jsSlice_length] at hpos
          refine ⟨by omega, by omega, by rw [← e3, ← e1, ← e2], by rw [← e3]; exact hsnip⟩

theorem dropWhile_head?_false {α : Type} {p : α → Bool} :
    ∀ {l : List α} {a : α}, (l.dropWhile p).head? = some a → p a = false := by
  intro l
  induction l with
  | nil => intro a h; simp [List.dropWhile] at h
  | cons c rest ih =>
    intro a h
    by_cases hc : p c = true
    · rw [List.dropWhile_cons_of_pos hc] at h
      exact ih h
    · rw [List.dropWhile_cons_of_neg hc] at h
      simp only [List.head?_cons, Option.some.injEq] at h
      subst h
      simpa using hc

/-! ## Claim theorems -/

/-- C6: for every non-empty text and every pair of offsets with
`0 ≤ start`, `end > start`, `end ≤ len(text)` in code-point units (and a
non-empty slice), `normalizeRange` returns exactly the same `start` and
`end` unchanged, with the snippet equal to `text[start:end]`. -/
theorem normalize_idempotent_on_valid (text : JSString) (s e : Int)
    (h0 : text ≠ []) (h1 : 0 ≤ s) (h2 : e > s) (h3 : e ≤ (text.length : Int))
    (h4 : jsSlice text s.toNat e.toNat ≠ []) :
    normalizeRange text s e = some ⟨s.toNat, e.toNat, jsSlice text s.toNat e.toNat⟩ := by
  have hlen : ¬(text.length = 0) := fun hh => h0 (List.length_eq_zero.mp hh)
  simp only [normalizeRange]
  rw [if_neg hlen, if_pos ⟨h1, h2, h3⟩, if_neg h4]

/-- Witness for C6 at `text = "abc"`, `start = 1`, `end = 3`. -/
theorem normalize_idempotent_on_valid_witness :
    normalizeRange ['a', 'b', 'c'] 1 3 = some ⟨1, 3, ['b', 'c']⟩ :=
  (normalize_idempotent_on_valid ['a', 'b', 'c'] 1 3 (by decide) (by decide)
    (by decide) (by decide) (by decide)).trans (by decide)

/-- C2 (counterexample): for the text `"한글 text"` (7 code points) with
reported offsets `start = 0`, `end = 3`, `normalizeRange` does *not* take the
byte-oriented fallback path: the fast-path bounds check `3 ≤ 7` succeeds, so
it returns the snippet `"한글 "` with bounds `(0, 3)`, not `"한"` with
`(0, 1)` as the claim states. -/
theorem scenario2_counterexample :
    normalizeRange ['한', '글', ' ', 't', 'e', 'x', 't'] 0 3 =
      some ⟨0, 3, ['한', '글', ' ']⟩ ∧
    normalizeRange ['한', '글', ' ', 't', 'e', 'x', 't'] 0 3 ≠
      some ⟨0, 1, ['한']⟩ := by decide

/-- C2 (amended): for text `"한글 text"` with reported offsets `start = 0`,
`end = 3`, the fast path applies (3 is within the 7 code points), so
`normalizeRange` returns the snippet `"한글 "` with bounds `(0, 3)`;  the
byte-offset helper `utf8OffsetToIndex` does map byte offset 3 to the
code-point index 1 at which the accumulated UTF-8 byte count first exceeds
it (and offset 0 to 0), but it is consulted only when the fast-path bounds
check fails, which is not the case here. -/
theorem scenario2_amended :
    normalizeRange ['한', '글', ' ', 't', 'e', 'x', 't'] 0 3 =
      some ⟨0, 3, ['한', '글', ' ']⟩ ∧
    utf8OffsetToIndex ['한', '글', ' ', 't', 'e', 'x', 't'] 3 = 1 ∧
    utf8OffsetToIndex ['한', '글', ' ', 't', 'e', 'x', 't'] 0 = 0 := by decide

/-- C3: for every text and offsets `start`, `end` outside `[0, len(text)]`,
any bounds returned by `normalizeRange` satisfy
`0 ≤ start < end ≤ len(text)`; and every `ProcessedIssue` produced by
`refineIssues` has `0 ≤ start < end ≤ len(document)` with snippet equal to
`text[start:end]`. -/
theorem normalize_clamping_invariant (text : JSString) (s e : Int)
    (hout : s < 0 ∨ (text.length : Int) < s ∨ e < 0 ∨ (text.length : Int) < e) :
    (∀ r, normalizeRange text s e = some r →
        0 ≤ r.start ∧ r.start < r.stop ∧ r.stop ≤ text.length) ∧
    (∀ (issues : List BareunIssue) (opts : Option Bool),
      ∀ p ∈ refineIssues text issues opts,
        0 ≤ p.start ∧ p.start < p.stop ∧ p.stop ≤ text.length ∧
          p.snippet = jsSlice text p.start p.stop) := by
  constructor
  · intro r h
    have hspec := normalizeRange_some_spec h
    exact ⟨Nat.zero_le _, hspec.1, hspec.2.1⟩
  · intro issues opts p hp
    simp only [refineIssues, List.mem_filterMap] at hp
    obtain ⟨issue, _, hf⟩ := hp
    split at hf
    · exact absurd hf (by simp)
    next nr hnr =>
      split at hf
      · exact absurd hf (by simp)
      split at hf
      · exact absurd hf (by simp)
      simp only [Option.some.injEq] at hf
      subst hf
      have hspec := normalizeRange_some_spec hnr
      exact ⟨Nat.zero_le _, hspec.1, hspec.2.1, hspec.2.2.1⟩

/-- Witness for C3 at `text = "a"`, `start = -1`, `end = 5` (both offsets
out of range; `normalizeRange` returns bounds `(0, 1)`). -/
theorem normalize_clamping_invariant_witness :
    normalizeRange ['a'] (-1) 5 = some ⟨0, 1, ['a']⟩ ∧
    (0 ≤ (0 : Nat) ∧ 0 < 1 ∧ 1 ≤ (['a'] : JSString).length) :=
  ⟨by decide,
    (normalize_clamping_invariant ['a'] (-1) 5 (Or.inl (by decide))).1
      ⟨0, 1, ['a']⟩ (by decide)⟩

/-- C8: every raw issue whose normalized half-open span overlaps any
computed inline-code span of the text is excluded from the output of
`refineIssues`: equivalently, every issue in the output has a span that
does not intersect any inline-code span, regardless of its category,
snippet content, or the other suppression rules. -/
theorem inline_code_suppression_conservative (text : JSString)
    (issues : List BareunIssue) (opts : Option Bool) :
    ∀ p ∈ refineIssues text issues opts,
      intersectsInlineCode p.start p.stop (computeInlineCodeOffsets text) = false := by
  intro p hp
  simp only [refineIssues, List.mem_filterMap] at hp
  obtain ⟨issue, _, hf⟩ := hp
  split at hf
  · exact absurd hf (by simp)
  next nr hnr =>
    split at hf
    next hint =>
      exact absurd hf (by simp)
    next hint =>
      split at hf
      · exact absurd hf (by simp)
      simp only [Option.some.injEq] at hf
      subst hf
      simp only [Bool.not_eq_true] at hint
      exact hint

/-- Witness for C8: the issue over `"가나"` survives refinement and its span
does not intersect the (empty) inline-code span list. -/
theorem inline_code_suppression_conservative_witness :
    ((⟨0, 2, ['맞'], none, none, ['맞'], ['가', '나']⟩ : ProcessedIssue) ∈
        refineIssues ['가', '나'] [{ start := 0, stop := 2, message := ['맞'] }] none) ∧
    intersectsInlineCode 0 2 (computeInlineCodeOffsets ['가', '나']) = false :=
  ⟨by decide,
    inline_code_suppression_conservative ['가', '나']
      [{ start := 0, stop := 2, message := ['맞'] }] none
      ⟨0, 2, ['맞'], none, none, ['맞'], ['가', '나']⟩ (by decide)⟩

/-- C10: for every issue in the output of `refineIssues`, the attached
category equals the upper-cased maximal leading run of characters in
`[A-Z_가-힣]` of the issue's message (the message splits as `run ++ rest`
with every character of `run` in the class and the head of `rest`, if any,
outside it), and is the literal string `"UNKNOWN"` when the message does not
begin with such a character; the canonical category used for gating and
display is computed by `categoryKey` from this message-derived string. -/
theorem category_derived_from_message (text : JSString)
    (issues : List BareunIssue) (opts : Option Bool) :
    ∀ p ∈ refineIssues text issues opts,
      (∃ run rest, p.message = run ++ rest ∧
        (∀ c ∈ run, isCategoryChar c = true) ∧
        (∀ c, rest.head? = some c → isCategoryChar c = false) ∧
        p.category = (if run = [] then "UNKNOWN".toList else run.map jsToUpper)) ∧
      p.category = extractCategory p.message ∧
      categoryKey p.category = categoryKey (extractCategory p.message) := by
  intro p hp
  simp only [refineIssues, List.mem_filterMap] at hp
  obtain ⟨issue, _, hf⟩ := hp
  split at hf
  · exact absurd hf (by simp)
  next nr hnr =>
    split at hf
    · exact absurd hf (by simp)
    split at hf
    · exact absurd hf (by simp)
    simp only [Option.some.injEq] at hf
    subst hf
    refine ⟨⟨issue.message.takeWhile isCategoryChar,
      issue.message.dropWhile isCategoryChar,
      (List.takeWhile_append_dropWhile _ _).symm,
      fun c hc => List.mem_takeWhile_imp hc,
      fun c hc => dropWhile_head?_false hc, ?_⟩, rfl, rfl⟩
    simp only [extractCategory]

/-- Witness for C10: a message starting with `"맞"` (a category character)
yields that run as the category. -/
theorem category_derived_from_message_witness :
    (['맞'] : JSString) = extractCategory ['맞'] :=
  (category_derived_from_message ['가', '나']
    [{ start := 0, stop := 2, message := ['맞'] }] none
    ⟨0, 2, ['맞'], none, none, ['맞'], ['가', '나']⟩ (by decide)).2.1

/-- C1: the per-document run counter starts absent (treated as 0) and each
new analysis run receives a strictly larger token (the first gets 1); a
token is stale exactly when it differs from the stored current token, so
after `n` initiations only token `n` is non-stale, and the commit gate of
`runAnalysis` leaves the diagnostics entry unchanged for any stale run's
result (service success or fallback alike). -/
theorem run_token_last_initiated_wins (n k : Nat) (h1 : 1 ≤ k) (h2 : k ≤ n) :
    ((beginRun (tokenAfter 0)).2 = 1) ∧
    (∀ m, (beginRun (tokenAfter m)).2 = m + 1) ∧
    (isStaleRun (tokenAfter n) k = false ↔ k = n) ∧
    (∀ issues diagnostics, isStaleRun (tokenAfter n) k = true →
      commitIfFresh (tokenAfter n) k issues diagnostics = diagnostics) := by
  have htok : ∀ m, tokenAfter (m + 1) = some (m + 1) := by
    intro m
    induction m with
    | zero => rfl
    | succ m ih =>
      show (beginRun (tokenAfter (m + 1))).1 = some (m + 2)
      rw [ih]
      rfl
  refine ⟨rfl, ?_, ?_, ?_⟩
  · intro m
    cases m with
    | zero => rfl
    | succ m =>
      show (beginRun (tokenAfter (m + 1))).2 = m + 2
      rw [htok m]
      rfl
  · obtain ⟨n', rfl⟩ : ∃ n', n = n' + 1 := ⟨n - 1, by omega⟩
    rw [htok n']
    simp [isStaleRun]
    omega
  · intro issues diagnostics hstale
    simp [commitIfFresh, hstale]

/-- Witness for C1 at `n = 2`, `k = 1`: the first run's token is 1; after a
second initiation token 1 is stale and its commit leaves the diagnostics
entry unchanged. -/
theorem run_token_last_initiated_wins_witness :
    (beginRun (tokenAfter 0)).2 = 1 ∧
    isStaleRun (tokenAfter 2) 1 = true ∧
    commitIfFresh (tokenAfter 2) 1 [] (some []) = some [] :=
  ⟨(run_token_last_initiated_wins 2 1 (by decide) (by decide)).1,
    by decide,
    (run_token_last_initiated_wins 2 1 (by decide) (by decide)).2.2.2 [] (some [])
      (by decide)⟩

/-- C4: on every edit the previously pending timer for the key is replaced
by one firing at `due = max(now + debounceMs, lastCommitTime + cooldownMs)`
(i.e. after `delay = max(0, due - now)`), and the scheduling itself fires no
analysis; hence two edits 100 ms apart with `debounceMs = 1200`,
`cooldownMs = 5000` and no prior commit produce exactly one analysis call,
fired 1200 ms after the second edit (for a wall clock at least past the
cooldown span, as `Date.now()` always is). -/
theorem scheduler_due_time_coalescing :
    (∀ (debounceMs cooldownMs : Nat) (s : SchedState) (now : Nat),
      (queueAnalysis debounceMs cooldownMs s now).pendingTimer =
          some (max (now + debounceMs) (s.lastRunAt.getD 0 + cooldownMs)) ∧
        (queueAnalysis debounceMs cooldownMs s now).fired = s.fired) ∧
    (∀ t1 : Nat, 5000 ≤ t1 →
      (processEdits 1200 5000 ⟨none, none, []⟩ [t1, t1 + 100]).fired =
        [t1 + 100 + 1200]) := by
  constructor
  · intro d c s now
    refine ⟨?_, rfl⟩
    simp only [queueAnalysis]
    congr 1
    omega
  · intro t1 h
    simp only [processEdits, fireDue, queueAnalysis, Option.getD]
    split
    next hcond => exact absurd hcond (by omega)
    next hcond =>
      simp only [List.nil_append, List.cons.injEq, and_true]
      omega

/-- Witness for C4 at `t1 = 10000`. -/
theorem scheduler_due_time_coalescing_witness :
    (processEdits 1200 5000 ⟨none, none, []⟩ [10000, 10000 + 100]).fired =
      [10000 + 100 + 1200] :=
  scheduler_due_time_coalescing.2 10000 (by decide)

/-- C5 (counterexample): in the catch handler of `runAnalysis` the staleness
check is performed once, *before* the fallback is computed; at a fresh run
(stored token 1, run token 1) the handler's operation trace is
check–compute–commit–status and contains no staleness check after the
fallback computation, contradicting the claim that the check is performed
both before and after. -/
theorem fallback_single_stale_check_counterexample :
    (runAnalysisCatch ⟨some 1, none, []⟩ ['a'] 1).2 =
      [CatchAction.checkStale false, CatchAction.computeFallback,
        CatchAction.commitDiagnostics, CatchAction.setStatus] ∧
    hasStaleCheckAfterFallback (runAnalysisCatch ⟨some 1, none, []⟩ ['a'] 1).2 =
      false := by decide

/-- C5 (amended): a service failure never propagates past the analysis entry
point (the catch handler is a total state transformer); it commits the Local
Heuristic Fallback for the current text in place of the service result
exactly when the run has not been superseded; the staleness check is
performed once, before the fallback is computed — the handler contains no
suspension point, so no newer run can begin between that check and the
commit. -/
theorem fallback_containment_amended (s : RunState) (text : JSString) (runToken : Nat) :
    ((runAnalysisCatch s text runToken).2.head? =
        some (CatchAction.checkStale (isStaleRun s.latestRunToken runToken))) ∧
    (isStaleRun s.latestRunToken runToken = true →
        runAnalysisCatch s text runToken = (s, [CatchAction.checkStale true])) ∧
    (isStaleRun s.latestRunToken runToken = false →
        (runAnalysisCatch s text runToken).1.diagnostics =
            some (buildLocalHeuristics text) ∧
          (runAnalysisCatch s text runToken).2 =
            [CatchAction.checkStale false, CatchAction.computeFallback,
              CatchAction.commitDiagnostics, CatchAction.setStatus]) := by
  by_cases hst : isStaleRun s.latestRunToken runToken = true
  · refine ⟨?_, fun _ => ?_, fun hc => absurd hst (by simp [hc])⟩ <;>
      simp [runAnalysisCatch, hst]
  · have hst' : isStaleRun s.latestRunToken runToken = false := by
      simpa using hst
    refine ⟨?_, fun hc => absurd hc (by simp [hst']), fun _ => ⟨?_, ?_⟩⟩ <;>
      simp [runAnalysisCatch, hst']

/-- Witness for C5 (amended): a fresh failure commits the fallback; a stale
one leaves the state untouched. -/
theorem fallback_containment_amended_witness :
    ((runAnalysisCatch ⟨some 2, none, []⟩ [' ', ' '] 2).1.diagnostics =
        some (buildLocalHeuristics [' ', ' '])) ∧
    (runAnalysisCatch ⟨some 2, none, []⟩ [' ', ' '] 1 =
        (⟨some 2, none, []⟩, [CatchAction.checkStale true])) :=
  ⟨((fallback_containment_amended ⟨some 2, none, []⟩ [' ', ' '] 2).2.2 (by decide)).1,
    (fallback_containment_amended ⟨some 2, none, []⟩ [' ', ' '] 1).2.1 (by decide)⟩

theorem decoLe_trans (a b c : ProcessedIssue × Nat × Nat)
    (h1 : decoLe a b = true) (h2 : decoLe b c = true) : decoLe a c = true := by
  simp only [decoLe, Bool.or_eq_true, decide_eq_true_eq, Bool.and_eq_true,
    beq_iff_eq] at *
  omega

theorem decoLe_total (a b : ProcessedIssue × Nat × Nat) :
    (decoLe a b || decoLe b a) = true := by
  simp only [decoLe, Bool.or_eq_true, decide_eq_true_eq, Bool.and_eq_true, beq_iff_eq]
  omega

/-- C9: for every issue list and document length, the built decoration
sequence contains exactly the issues whose span clipped to
`[0, docLength]` has `end > start` (a permutation of the clipped-and-kept
entries — nothing merged, nothing deduplicated), and the emitted
`(from, to)` pairs are sorted ascending by `from` with ties broken by
ascending `to`. -/
theorem decorations_sorted_and_complete (issues : List ProcessedIssue)
    (docLength : Nat) :
    List.Pairwise (fun a b : Nat × Nat × JSString =>
        a.1 < b.1 ∨ (a.1 = b.1 ∧ a.2.1 ≤ b.2.1)) (buildDecorations issues docLength) ∧
    (buildDecorations issues docLength).Perm
      (((issues.map fun iss =>
          (iss, (clamp iss.start 0 docLength).toNat,
            (clamp iss.stop 0 docLength).toNat)).filter
        fun item => item.2.2 > item.2.1).map fun item =>
        (item.2.1, item.2.2,
          "bkga-underline ".toList ++ categoryToClass item.1.category)) := by
  simp only [buildDecorations]
  split
  next hemp =>
    have : issues = [] := by simpa using hemp
    subst this
    simp
  next hemp =>
    constructor
    · refine (List.pairwise_map).mpr ?_
      have hs := @List.sorted_mergeSort _ decoLe decoLe_trans decoLe_total
        ((issues.map fun iss => (iss, (clamp iss.start 0 docLength).toNat,
          (clamp iss.stop 0 docLength).toNat)).filter fun item => item.2.2 > item.2.1)
      refine hs.imp ?_
      intro a b hab
      simp only [decoLe, Bool.or_eq_true, decide_eq_true_eq, Bool.and_eq_true,
        beq_iff_eq] at hab
      dsimp only
      omega
    · exact (List.mergeSort_perm _ decoLe).map _

theorem dropWhile_eq_self_of {α : Type} {p : α → Bool} {l : List α}
    (h : ∀ c ∈ l, p c = false) : l.dropWhile p = l := by
  cases l with
  | nil => rfl
  | cons c rest =>
    exact List.dropWhile_cons_of_neg (by simp [h c (List.mem_cons_self c rest)])

theorem jsTrim_eq_self_of_no_space {l : JSString}
    (h : ∀ c ∈ l, isJsSpace c = false) : jsTrim l = l := by
  unfold jsTrim jsTrimEnd
  rw [dropWhile_eq_self_of h,
    dropWhile_eq_self_of (fun c hc => h c (List.mem_reverse.mp hc)),
    List.reverse_reverse]

theorem mem_jsTrim {l : JSString} {c : Char} (h : c ∈ jsTrim l) : c ∈ l := by
  unfold jsTrim jsTrimEnd at h
  have h1 := List.mem_reverse.mp h
  have h2 := (List.dropWhile_sublist _).mem h1
  have h3 := List.mem_reverse.mp h2
  exact (List.dropWhile_sublist _).mem h3

/-- The result of `normalizeWord` is already trimmed (it never contains
whitespace at all). -/
theorem normalizeWord_trim (w : JSString) :
    jsTrim (normalizeWord w) = normalizeWord w := by
  apply jsTrim_eq_self_of_no_space
  intro c hc
  have hmem : c ∈ w.filter (fun c => !(isNormalizeStripChar c)) := mem_jsTrim hc
  have h2 : isNormalizeStripChar c = false := by
    simpa using (List.mem_filter.mp hmem).2
  cases hsp : isJsSpace c with
  | false => rfl
  | true =>
    have : isNormalizeStripChar c = true := by
      simp [isNormalizeStripChar, hsp]
    rw [this] at h2
    cases h2

theorem mem_dictKeys (k : DictKey) : k ∈ dictKeys := by
  cases k <;> simp [dictKeys]

/-- `lookupDictionary` finds something iff the (already trimmed) word is
non-empty and belongs to one of the five dictionary buckets. -/
theorem lookupDictionary_ne_nil_iff (d : CustomDictionaryData) (w : JSString)
    (hw : jsTrim w = w) :
    lookupDictionary d w ≠ [] ↔ (w ≠ [] ∧ ∃ k, w ∈ dictGet d k) := by
  unfold lookupDictionary
  rw [hw]
  by_cases hnil : w = []
  · simp [hnil]
  · rw [if_neg hnil]
    simp only [ne_eq, hnil, not_false_iff, true_and]
    constructor
    · intro hne
      have hex : ∃ k ∈ dictKeys, ((dictGet d k).contains w) = true := by
        by_contra hall
        push_neg at hall
        apply hne
        apply List.filter_eq_nil_iff.mpr
        intro k hk
        simpa using hall k hk
      obtain ⟨k, _, hc⟩ := hex
      exact ⟨k, List.elem_iff.mp hc⟩
    · rintro ⟨k, hk⟩
      intro hfil
      have hnp := List.filter_eq_nil_iff.mp hfil k (mem_dictKeys k)
      exact hnp (List.elem_iff.mpr hk)

/-- C7: an issue is hidden from the visible-issue set by the dictionary rule
exactly when the custom dictionary is enabled, suppression-by-dictionary is
enabled, the issue's canonical category is outside the exempt set
`{SPACING, STATISTICAL}`, and the whitespace/quote-stripped snippet or
suggestion text exactly matches a dictionary entry; issues whose canonical
category is `SPACING` or `STATISTICAL` always pass the dictionary filter,
and the visible-issue set keeps exactly the issues passing both the
category-enabled check and the dictionary filter. -/
theorem dict_gated_suppression (settings : BkgaSettings) (dict : CustomDictionaryData)
    (issue : ProcessedIssue) :
    (passesDictFilter settings dict issue = false ↔
      (settings.customDictEnabled = true ∧ settings.suppressDictIssues = true ∧
        categoryKey issue.category ≠ "SPACING".toList ∧
        categoryKey issue.category ≠ "STATISTICAL".toList ∧
        ∃ w ∈ [issue.snippet, issue.suggestion.getD []],
          normalizeWord w ≠ [] ∧ ∃ k, normalizeWord w ∈ dictGet dict k)) ∧
    ((categoryKey issue.category = "SPACING".toList ∨
        categoryKey issue.category = "STATISTICAL".toList) →
      passesDictFilter settings dict issue = true) ∧
    (∀ (disabled : List JSString) (issues : List ProcessedIssue),
      issue ∈ getVisibleIssues settings dict disabled issues ↔
        (issue ∈ issues ∧ isCategoryEnabled disabled issue = true ∧
          passesDictFilter settings dict issue = true)) := by
  have hP : ∀ w : JSString,
      ((!(normalizeWord w).isEmpty &&
        !(lookupDictionary dict (normalizeWord w)).isEmpty) = true) ↔
        (normalizeWord w ≠ [] ∧ ∃ k, normalizeWord w ∈ dictGet dict k) := by
    intro w
    rw [Bool.and_eq_true, Bool.not_eq_true', Bool.not_eq_true',
      List.isEmpty_eq_false, List.isEmpty_eq_false,
      lookupDictionary_ne_nil_iff dict _ (normalizeWord_trim w)]
    tauto
  have hvis : ∀ (disabled : List JSString) (issues : List ProcessedIssue),
      issue ∈ getVisibleIssues settings dict disabled issues ↔
        (issue ∈ issues ∧ isCategoryEnabled disabled issue = true ∧
          passesDictFilter settings dict issue = true) := by
    intro disabled issues
    simp [getVisibleIssues, List.mem_filter, Bool.and_eq_true, and_assoc]
  refine ⟨?_, ?_, hvis⟩
  · by_cases h1 : settings.customDictEnabled = true
    · by_cases h2 : settings.suppressDictIssues = true
      · by_cases h3 : (categoryKey issue.category = "SPACING".toList ∨
            categoryKey issue.category = "STATISTICAL".toList)
        · rcases h3 with h3 | h3 <;> simp [passesDictFilter, h1, h2, h3]
        · have hpf : passesDictFilter settings dict issue =
              !([issue.snippet, issue.suggestion.getD []].any fun w =>
                !(normalizeWord w).isEmpty &&
                  !(lookupDictionary dict (normalizeWord w)).isEmpty) := by
            simp only [passesDictFilter, h1, h2]
            rw [if_neg (by simp), if_neg (by simp), if_neg h3]
          rw [hpf, Bool.not_eq_false', List.any_eq_true]
          constructor
          · rintro ⟨w, hw, hPw⟩
            exact ⟨h1, h2, (not_or.mp h3).1, (not_or.mp h3).2, w, hw, (hP w).mp hPw⟩
          · rintro ⟨-, -, -, -, w, hw, hRw⟩
            exact ⟨w, hw, (hP w).mpr hRw⟩
      · have h2' : settings.suppressDictIssues = false := by simpa using h2
        simp [passesDictFilter, h1, h2']
    · have h1' : settings.customDictEnabled = false := by simpa using h1
      simp [passesDictFilter, h1']
  · intro hor
    rcases hor with h | h <;> simp [passesDictFilter, h]

/-- Witness for C7: a `STANDARD`-category issue whose snippet is a
dictionary entry is suppressed; the same dictionary never suppresses a
`SPACING` issue. -/
theorem dict_gated_suppression_witness :
    (passesDictFilter ⟨true, true, 1200, 5000, true, true⟩
        ⟨[['한', '글']], [], [], [], []⟩
        ⟨0, 2, "표준어".toList, none, none, "표준어".toList, ['한', '글']⟩ = false) ∧
    (passesDictFilter ⟨true, true, 1200, 5000, true, true⟩
        ⟨[['한', '글']], [], [], [], []⟩
        ⟨0, 2, "SPACING".toList, none, none, "SPACING".toList, ['한', '글']⟩ = true) :=
  ⟨(dict_gated_suppression ⟨true, true, 1200, 5000, true, true⟩
      ⟨[['한', '글']], [], [], [], []⟩
      ⟨0, 2, "표준어".toList, none, none, "표준어".toList, ['한', '글']⟩).1.mpr
      ⟨rfl, rfl, by decide, by decide,
        ['한', '글'], by simp, by decide, DictKey.npSet, by decide⟩,
    (dict_gated_suppression ⟨true, true, 1200, 5000, true, true⟩
      ⟨[['한', '글']], [], [], [], []⟩
      ⟨0, 2, "SPACING".toList, none, none, "SPACING".toList, ['한', '글']⟩).2.1
      (Or.inl (by decide))⟩

end Bkga
